import Mathlib

/-!
Verification of the shard block processor (process/block/shardblock.go).

The Go code is shallowly embedded: byte strings and hashes are `Nat`,
Go maps keyed by hashes are association lists with overwrite-on-insert,
external collaborators (marshalizer, hasher, transaction coordinator,
accounts adapter, fork detector) appear as explicit oracle parameters
recording the answers the collaborator would give at each call site,
and deferred statements are applied explicitly at every return point.
-/

namespace ShardBlock

/-- Go `block.Type`: the type of a miniblock. -/
inductive MBType where
  | txBlock
  | stateBlock
  | peerBlock
  | smartContractResultBlock
  | rewardsBlock
  | invalidBlock
  deriving DecidableEq, Repr

/-- Go `block.MiniBlock`: an ordered batch of transaction hashes with one
(sender, receiver) shard pair and a type. Hashes are modelled as `Nat`. -/
structure MiniBlock where
  txHashes : List Nat
  receiverShardID : Nat
  senderShardID : Nat
  mbType : MBType
  deriving DecidableEq, Repr

/-- Go `block.MiniBlockHeader`: the header-side record of one miniblock. -/
structure MiniBlockHeader where
  hash : Nat
  senderShardID : Nat
  receiverShardID : Nat
  txCount : Nat
  mbType : MBType
  deriving DecidableEq, Repr

/-- Go `block.Header`: a shard block header (the fields the processor uses). -/
structure Header where
  nonce : Nat
  prevHash : Nat
  prevRandSeed : Nat
  randSeed : Nat
  shardId : Nat
  round : Nat
  rootHash : Nat
  miniBlockHeaders : List MiniBlockHeader
  metaBlockHashes : List Nat
  txCount : Nat
  deriving DecidableEq, Repr

/-- One entry of a metablock's `ShardInfo`/shard-miniblock listing: a
miniblock hash together with its sender and receiver shards. -/
structure ShardMiniBlock where
  hash : Nat
  senderShardId : Nat
  receiverShardId : Nat
  deriving DecidableEq, Repr

/-- Go `block.MetaBlock` (the fields the shard processor uses). The
`shardMiniBlocks` field lists every shard-miniblock header the metablock
notarizes, from which the destination projection is computed. -/
structure MetaBlock where
  nonce : Nat
  round : Nat
  prevHash : Nat
  prevRandSeed : Nat
  randSeed : Nat
  shardMiniBlocks : List ShardMiniBlock
  deriving DecidableEq, Repr

/-- Modelled from the spec: `MetaBlock` "exposes a projection 'miniblock
headers with destination shard X'" (`GetMiniBlockHeadersWithDst`, defined in
the data/block package which is not part of the sources): the hashes of the
notarized shard miniblocks whose receiver is `destId` and whose sender is a
different shard. -/
def MetaBlock.miniBlockHashesWithDst (m : MetaBlock) (destId : Nat) : List Nat :=
  (m.shardMiniBlocks.filter
    (fun s => s.receiverShardId == destId && s.senderShardId != destId)).map (·.hash)

/-- The errors the embedded code distinguishes (package `process` error values). -/
inductive Err where
  | errNilHaveTimeHandler
  | errHeaderBodyMismatch
  | errTimeIsOut
  | errAccountStateDirty
  | errRootStateDoesNotMatch
  | errNilBlockHeader
  | errNilTxBlockBody
  | errHeaderNotFinal
  | errOther (code : Nat)
  deriving DecidableEq, Repr

/-- Go map lookup for a map built by iterating a list front to back with
overwrite on key collision: the last binding for a key wins. -/
def lookupLast (key : Nat) (l : List MiniBlockHeader) : Option MiniBlockHeader :=
  l.reverse.find? (fun mh => mh.hash == key)

/-- Embedding of `shardProcessor.checkHeaderBodyCorrelation`
(shardblock.go:389-427). `h` is the composition of the marshalizer and the
hasher on a miniblock (`hasher.Compute(marshal(mb))`), modelled as a total
function. The Go code builds a map from miniblock-header hash to the header
entry (later entries overwrite earlier ones), rejects when the header and
body lengths differ, and then for each body miniblock looks its hash up in
the map and compares the transaction count, receiver shard and sender shard
of the entry found. -/
def checkHeaderBodyCorrelation (h : MiniBlock → Nat) (hdr : Header)
    (body : List MiniBlock) : Option Err :=
  if hdr.miniBlockHeaders.length ≠ body.length then
    some Err.errHeaderBodyMismatch
  else
    go body
where
  /-- The per-miniblock loop of `checkHeaderBodyCorrelation`. -/
  go : List MiniBlock → Option Err
    | [] => none
    | mb :: rest =>
      match lookupLast (h mb) hdr.miniBlockHeaders with
      | none => some Err.errHeaderBodyMismatch
      | some mbHdr =>
        if mbHdr.txCount ≠ mb.txHashes.length then some Err.errHeaderBodyMismatch
        else if mbHdr.receiverShardID ≠ mb.receiverShardID then some Err.errHeaderBodyMismatch
        else if mbHdr.senderShardID ≠ mb.senderShardID then some Err.errHeaderBodyMismatch
        else go rest

/-- The miniblock header that `CreateBlockHeader` (shardblock.go:1512-1527)
derives from a body miniblock; also the entry the claim about
`checkHeaderBodyCorrelation` expects at each index. -/
def mkMiniBlockHeader (h : MiniBlock → Nat) (mb : MiniBlock) : MiniBlockHeader :=
  { hash := h mb
    senderShardID := mb.senderShardID
    receiverShardID := mb.receiverShardID
    txCount := mb.txHashes.length
    mbType := mb.mbType }

/-- A concrete hash function for the counterexample instances: injective on
the miniblocks used there. -/
def exHash (mb : MiniBlock) : Nat :=
  mb.txHashes.sum + 100 * mb.receiverShardID + 1000 * mb.senderShardID + 7

/-- First concrete miniblock of the correlation counterexample. -/
def exMbA : MiniBlock :=
  { txHashes := [1], receiverShardID := 0, senderShardID := 1, mbType := MBType.txBlock }

/-- Second concrete miniblock of the correlation counterexample. -/
def exMbB : MiniBlock :=
  { txHashes := [2, 3], receiverShardID := 0, senderShardID := 2, mbType := MBType.txBlock }

/-- Counterexample body: the two miniblocks in order A, B. -/
def exBody : List MiniBlock := [exMbA, exMbB]

/-- Counterexample header: the two miniblock headers in the swapped order
B, A (each entry correct for its own miniblock). -/
def exHdr : Header :=
  { nonce := 1, prevHash := 0, prevRandSeed := 0, randSeed := 0, shardId := 0,
    round := 1, rootHash := 0,
    miniBlockHeaders := [mkMiniBlockHeader exHash exMbB, mkMiniBlockHeader exHash exMbA],
    metaBlockHashes := [], txCount := 3 }

/-- Modelled from the spec: construction validity of a header against the
previously verified one — "prevHash == previousVerified.hash, prevRandSeed ==
previousVerified.randSeed, round > previousVerified.round, nonce >
previousVerified.nonce" (`baseProcessor.isHdrConstructionValid`, whose file is
not part of the sources). `hashM` is the hash of a metablock's serialization
(`hasher.Compute(marshal(hdr))`). -/
def isHdrConstructionValid (hashM : MetaBlock → Nat) (curr prev : MetaBlock) : Bool :=
  curr.prevHash == hashM prev &&
  curr.prevRandSeed == prev.randSeed &&
  curr.round > prev.round &&
  curr.nonce > prev.nonce

/-- The scanning loop shared by `isMetaHeaderFinal` (shardblock.go:1287-1303)
and `checkMetaHdrFinality` (shardblock.go:362-378): walk the sorted candidate
successors, and whenever the current one has the successor nonce of the last
verified header and is construction-valid against it, advance the pointer and
bump the verified count; return true as soon as `k` successors are verified,
and otherwise report whether `k` were verified when the list is exhausted. -/
def finalScan (hashM : MetaBlock → Nat) (k : Nat) :
    MetaBlock → Nat → List MetaBlock → Bool
  | _, count, [] => count ≥ k
  | lastVerified, count, hdr :: rest =>
    if count ≥ k then true
    else if hdr.nonce == lastVerified.nonce + 1 then
      if isHdrConstructionValid hashM hdr lastVerified then
        finalScan hashM k hdr (count + 1) rest
      else
        finalScan hashM k lastVerified count rest
    else
      finalScan hashM k lastVerified count rest

/-- Embedding of `shardProcessor.isMetaHeaderFinal` (shardblock.go:1275-1310).
The candidate list passed here is the suffix of the nonce-sorted pool
candidates from the `startPos` argument on; the Go nil guards on the current
header and on the slice are the two `Option` matches. -/
def isMetaHeaderFinal (hashM : MetaBlock → Nat) (k : Nat)
    (currHdr : Option MetaBlock) (sortedHdrs : Option (List MetaBlock)) : Bool :=
  match currHdr, sortedHdrs with
  | none, _ => false
  | some _, none => false
  | some c, some l => finalScan hashM k c 0 l

/-- The claim's counting formulation: scan the sorted successor list in
order, advancing a last-verified pointer, and count the headers that have
the successor nonce and are construction-valid against the last verified
header. -/
def countValidSuccessors (hashM : MetaBlock → Nat) :
    MetaBlock → List MetaBlock → Nat
  | _, [] => 0
  | lastVerified, hdr :: rest =>
    if hdr.nonce == lastVerified.nonce + 1 &&
        isHdrConstructionValid hashM hdr lastVerified then
      countValidSuccessors hashM hdr rest + 1
    else
      countValidSuccessors hashM lastVerified rest

/-- Go `hdrInfo` (shardblock.go:28-31): a tracked header together with the
flag telling whether it is used in the block under construction. -/
structure HdrInfo where
  usedInBlock : Bool
  hdr : MetaBlock
  deriving DecidableEq, Repr

/-- Go map assignment `m[key] = v` on a hash-keyed map modelled as an
association list: overwrite the binding when the key is present, append it
otherwise (so the list length equals the Go map's length). -/
def mapInsert (m : List (Nat × HdrInfo)) (key : Nat) (v : HdrInfo) :
    List (Nat × HdrInfo) :=
  if m.any (fun p => p.1 == key) then
    m.map (fun p => if p.1 == key then (key, v) else p)
  else m ++ [(key, v)]

/-- Go map lookup `m[key]` on the association-list map. -/
def lookupHdr (m : List (Nat × HdrInfo)) (key : Nat) : Option HdrInfo :=
  (m.find? (fun p => p.1 == key)).map (·.2)

/-- Embedding of `shardProcessor.getMaxMiniBlocksSpaceRemained`
(shardblock.go:1680-1690); `maxMbInBlock` stands for the constant
`core.MaxMiniBlocksInBlock`. -/
def getMaxMiniBlocksSpaceRemained (maxMbInBlock maxItemsInBlock
    itemsAddedInBlock miniBlocksAddedInBlock : Nat) : Int :=
  min ((maxItemsInBlock : Int) - (itemsAddedInBlock : Int))
    ((maxMbInBlock : Int) - (miniBlocksAddedInBlock : Int))

/-- The transaction coordinator's answer to one
`CreateMbsAndProcessCrossShardTransactionsDstMe` call: produced miniblocks,
number of transactions added, and whether the metablock was fully handled. -/
structure CoordResult where
  mbs : List MiniBlock
  txs : Nat
  finished : Bool
  deriving DecidableEq, Repr

/-- The inputs of `createAndProcessCrossMiniBlocksDstMe` that do not change
during the loop: the hasher on metablocks, the finality constant, the self
shard, the two budget constants, and the oracles giving `haveTime()` and the
coordinator's answer at the `i`-th loop iteration. -/
structure SelCfg where
  hashM : MetaBlock → Nat
  k : Nat
  selfId : Nat
  maxMbInBlock : Nat
  maxItemsInBlock : Nat
  haveTime : Nat → Bool
  coord : Nat → CoordResult

/-- The mutable state of the `createAndProcessCrossMiniBlocksDstMe` loop
(shardblock.go:1320-1322, 1337): collected miniblocks, transaction and
header counters, the per-block header-tracking map, and the last verified
metablock header. -/
structure SelState where
  miniBlocks : List MiniBlock
  txsAdded : Nat
  hdrsAdded : Nat
  hdrHashAndInfo : List (Nat × HdrInfo)
  lastMetaHdr : MetaBlock

/-- The state update of `createAndProcessCrossMiniBlocksDstMe` after the
transaction coordinator returns for one candidate (shardblock.go:1398-1405):
append the produced miniblocks, add the transaction count, and record the
candidate as used iff at least one transaction was added. -/
def applyCoord (st : SelState) (hash : Nat) (hdr : MetaBlock)
    (r : CoordResult) : SelState :=
  { st with miniBlocks := st.miniBlocks ++ r.mbs,
            txsAdded := st.txsAdded + r.txs,
            hdrHashAndInfo :=
              if r.txs > 0 then mapInsert st.hdrHashAndInfo hash ⟨true, hdr⟩
              else st.hdrHashAndInfo,
            hdrsAdded := if r.txs > 0 then st.hdrsAdded + 1 else st.hdrsAdded }

/-- Recording a candidate metablock in the tracking map with
`usedInBlock = true`, bumping the added-headers counter and advancing the
last verified pointer (shardblock.go:1370-1375). -/
def markUsed (st : SelState) (hash : Nat) (hdr : MetaBlock) : SelState :=
  { st with hdrHashAndInfo := mapInsert st.hdrHashAndInfo hash ⟨true, hdr⟩,
            hdrsAdded := st.hdrsAdded + 1,
            lastMetaHdr := hdr }

/-- Embedding of the candidate loop of
`createAndProcessCrossMiniBlocksDstMe` (shardblock.go:1338-1413). The
candidates are the nonce-sorted `(hash, header)` pairs from the pool; `i`
is the loop index used to consult the oracles. Stopping (`break`) returns
the current state; skipping (`continue`) recurses on the remaining
candidates. -/
def crossSel (cfg : SelCfg) : Nat → SelState → List (Nat × MetaBlock) → SelState
  | _, st, [] => st
  | i, st, (hash, hdr) :: rest =>
    if ¬ cfg.haveTime i then st
    else if st.miniBlocks.length ≥ cfg.maxMbInBlock then st
    else if st.hdrHashAndInfo.length + st.miniBlocks.length ≥ cfg.maxItemsInBlock then st
    else if ¬ isHdrConstructionValid cfg.hashM hdr st.lastMetaHdr then
      crossSel cfg (i + 1) st rest
    else if ¬ isMetaHeaderFinal cfg.hashM cfg.k (some hdr) (some (rest.map (·.2))) then
      crossSel cfg (i + 1) st rest
    else if (hdr.miniBlockHashesWithDst cfg.selfId).isEmpty then
      crossSel cfg (i + 1) (markUsed st hash hdr) rest
    else if st.txsAdded ≥ cfg.maxItemsInBlock then
      crossSel cfg (i + 1) st rest
    else if (cfg.maxItemsInBlock : Int) - (st.txsAdded : Int) > 0 ∧
        getMaxMiniBlocksSpaceRemained cfg.maxMbInBlock cfg.maxItemsInBlock
          (st.hdrHashAndInfo.length + st.miniBlocks.length + 1)
          st.miniBlocks.length > 0 then
      if ¬ (cfg.coord i).finished then applyCoord st hash hdr (cfg.coord i)
      else
        crossSel cfg (i + 1)
          { applyCoord st hash hdr (cfg.coord i) with lastMetaHdr := hdr } rest
    else
      crossSel cfg (i + 1) st rest

/-- A concrete metablock used as the predecessor in the witness instances. -/
def exMetaPrev : MetaBlock :=
  { nonce := 1, round := 1, prevHash := 0, prevRandSeed := 0, randSeed := 3,
    shardMiniBlocks := [] }

/-- A concrete metablock construction-valid on top of `exMetaPrev` under
`exHashM`, notarizing no miniblock towards shard 0. -/
def exMetaNext : MetaBlock :=
  { nonce := 2, round := 2, prevHash := 10, prevRandSeed := 3, randSeed := 4,
    shardMiniBlocks := [] }

/-- A concrete metablock hasher for the witness instances. -/
def exHashM (m : MetaBlock) : Nat := m.nonce * 10

/-- Selector configuration whose time oracle has already expired, for the
budget-stop witness. -/
def exSelCfgNoTime : SelCfg :=
  { hashM := exHashM, k := 0, selfId := 0, maxMbInBlock := 100,
    maxItemsInBlock := 1000, haveTime := fun _ => false,
    coord := fun _ => { mbs := [], txs := 0, finished := true } }

/-- Selector configuration with time available, for the marking witness. -/
def exSelCfgTime : SelCfg :=
  { exSelCfgNoTime with haveTime := fun _ => true }

/-- An empty selector state on top of `exMetaPrev`. -/
def exSelState : SelState :=
  { miniBlocks := [], txsAdded := 0, hdrsAdded := 0, hdrHashAndInfo := [],
    lastMetaHdr := exMetaPrev }

/-- Embedding of `shardProcessor.CreateBlockHeader` (shardblock.go:1486-1543).
`rootHash` is the accounts adapter's current root hash (`getRootHash`),
`selfId` the shard coordinator's self id, `h` the miniblock hasher and
`metaHashesUsed` the nonce-sorted hashes of the tracked headers marked used
(`sortHdrsHashesForCurrentBlock(true)`). A nil (or interface-nil) body
handler is `none`. Returns the header handler and the error. -/
def createBlockHeader (rootHash selfId : Nat) (h : MiniBlock → Nat)
    (metaHashesUsed : List Nat) (body? : Option (List MiniBlock)) :
    Option Header × Option Err :=
  let header : Header :=
    { nonce := 0, prevHash := 0, prevRandSeed := 0, randSeed := 0,
      shardId := selfId, round := 0, rootHash := rootHash,
      miniBlockHeaders := [], metaBlockHashes := [], txCount := 0 }
  match body? with
  | none => (some header, none)
  | some body =>
    (some { header with
        miniBlockHeaders := body.map (mkMiniBlockHeader h),
        txCount := (body.map (fun mb => mb.txHashes.length)).sum,
        metaBlockHashes := metaHashesUsed }, none)

/-- One delivery handled by `receivedMetaBlock` while building or validating
a block: whether the arriving metablock fills a tracked entry whose header
is still absent (a hit in `hdrHashAndInfo` with a nil header, which
decrements `missingHdrs`), and the number of final headers
`requestFinalMissingHeaders` would report missing at this moment (its
return value, determined by the pool contents). -/
structure DeliverEvent where
  fillsMissing : Bool
  finalMissing : Nat

/-- Embedding of the counter-and-signal logic of `receivedMetaBlock`
(shardblock.go:1047-1080) on the pair
(`missingHdrs`, `missingFinalHdrs`): when some counter is positive the
dispatcher decrements `missingHdrs` (uint32 wrap-around arithmetic) if the
delivery fills a missing tracked entry, recomputes `missingFinalHdrs` when
`missingHdrs` has reached zero, and sends on `chRcvAllMetaHdrs` iff both
counters are now zero; when both counters are already zero the guarded
branch is skipped entirely and nothing is sent. Returns the new counters
and whether the signal was sent. -/
def deliverStep (s : Nat × Nat) (ev : DeliverEvent) : (Nat × Nat) × Bool :=
  if s.1 > 0 ∨ s.2 > 0 then
    let mh := if ev.fillsMissing then (s.1 + 4294967295) % 4294967296 else s.1
    let mf := if mh = 0 then ev.finalMissing else s.2
    ((mh, mf), mh == 0 && mf == 0)
  else (s, false)

/-- The number of completion signals sent over a sequence of deliveries
within one build/validate cycle. -/
def signalCount (s : Nat × Nat) : List DeliverEvent → Nat
  | [] => 0
  | ev :: rest =>
    (if (deliverStep s ev).2 then 1 else 0) + signalCount (deliverStep s ev).1 rest

/-- Go `sharding.MetachainShardId`. -/
def metachainShardId : Nat := 4294967295

/-- Go map assignment on a generic hash-keyed map modelled as an
association list (overwrite when present, append otherwise). -/
def amapPut {κ α : Type} [BEq κ] (m : List (κ × α)) (key : κ) (v : α) :
    List (κ × α) :=
  if m.any (fun p => p.1 == key) then
    m.map (fun p => if p.1 == key then (key, v) else p)
  else m ++ [(key, v)]

/-- Go map deletion on the association-list map. -/
def amapRemove {κ α : Type} [BEq κ] (m : List (κ × α)) (key : κ) :
    List (κ × α) :=
  m.filter (fun p => ¬ p.1 == key)

/-- Go map lookup on the association-list map. -/
def amapGet {κ α : Type} [BEq κ] (m : List (κ × α)) (key : κ) : Option α :=
  (m.find? (fun p => p.1 == key)).map (·.2)

/-- Embedding of `shardProcessor.addProcessedMiniBlock`
(shardblock.go:1626-1639) on the processed-miniblocks ledger
(`map[metaBlockHash]map[miniBlockHash]struct{}`, the inner set being a
duplicate-free list): record `mbHash` as processed under `metaHash`. -/
def ledgerAdd (ledger : List (Nat × List Nat)) (metaHash mbHash : Nat) :
    List (Nat × List Nat) :=
  if ledger.any (fun p => p.1 == metaHash) then
    ledger.map (fun p =>
      if p.1 == metaHash then
        (p.1, if p.2.contains mbHash then p.2 else p.2 ++ [mbHash])
      else p)
  else ledger ++ [(metaHash, [mbHash])]

/-- Embedding of `shardProcessor.removeProcessedMiniBlock`
(shardblock.go:1641-1650): delete `mbHash` from the inner set of every
metablock entry. -/
def ledgerRemoveMb (ledger : List (Nat × List Nat)) (mbHash : Nat) :
    List (Nat × List Nat) :=
  ledger.map (fun p => (p.1, p.2.filter (fun x => ¬ x == mbHash)))

/-- Embedding of `shardProcessor.removeAllProcessedMiniBlocks`
(shardblock.go:1652-1656): drop the whole entry of `metaHash`. -/
def ledgerRemoveAll (ledger : List (Nat × List Nat)) (metaHash : Nat) :
    List (Nat × List Nat) :=
  ledger.filter (fun p => ¬ p.1 == metaHash)

/-- Embedding of `shardProcessor.isMiniBlockProcessed`
(shardblock.go:1666-1678). -/
def isMiniBlockProcessed (ledger : List (Nat × List Nat))
    (metaHash mbHash : Nat) : Bool :=
  match amapGet ledger metaHash with
  | none => false
  | some mbs => mbs.contains mbHash

/-- The global state the commit/restore pair manipulates: the
processed-miniblocks ledger, the metablocks data pool, the headers-nonces
data pool (entries keyed by (nonce, shardId)), the `MetaBlockUnit` and
`MetaHdrNonceHashDataUnit` storage units, the notarized metachain headers
slice, and the accounts journal length. -/
structure GState where
  ledger : List (Nat × List Nat)
  metaBlockPool : List (Nat × MetaBlock)
  poolNonces : List ((Nat × Nat) × Nat)
  storageMeta : List (Nat × MetaBlock)
  storageMetaNonce : List (Nat × Nat)
  notarized : List MetaBlock
  journalLen : Nat
  deriving DecidableEq, Repr

/-- The collaborators' answers consumed by the embedded `CommitBlock` and
`RestoreBlockIntoPools`: the hashers (hasher composed with the marshalizer)
on shard headers and metablocks, the self shard, the fork detector's
`GetHighestFinalBlockNonce` answer, and the results of the out-of-scope
collaborator calls. -/
structure CommitCfg where
  hashHdr : Header → Nat
  hashMeta : MetaBlock → Nat
  selfId : Nat
  highestFinalNonce : Nat
  checkBlockValidity : Option Err
  saveBlockData : Option Err
  finalHeaders : Option Err
  commitAccounts : Option Err
  restoreTx : Option Err

/-- The `hdrsToAttestPreviousFinal` computation at shardblock.go:714:
`uint32(header.Nonce - highestFinalBlockNonce) + 1`, with the subtraction
performed on uint64 values (wrap-around), the difference truncated to
uint32 and the increment again a uint32 operation. -/
def hdrsToAttestPreviousFinal (headerNonce highestFinal : Nat) : Nat :=
  ((headerNonce % 18446744073709551616 + 18446744073709551616 -
      highestFinal % 18446744073709551616) %
    18446744073709551616 % 4294967296 + 1) % 4294967296

/-- Modelled from the spec: `baseProcessor.removeNotarizedHdrsBehindPreviousFinal`
(file not part of the sources) — the notarized slice is "append-only within
a cycle and trimmed only by the committer" (spec section 5): the committer
drops the oldest entries from the front of the slice, cutting it to its
last `hdrsToPreserve + 1` entries when it is longer than `hdrsToPreserve`. -/
def removeNotarizedBehindFinal (hdrsToPreserve : Nat)
    (notarized : List MetaBlock) : List MetaBlock :=
  if notarized.length > hdrsToPreserve then
    notarized.drop (notarized.length - 1 - hdrsToPreserve)
  else notarized

/-- Insertion into a nonce-sorted metablock list. -/
def insertByNonce (m : MetaBlock) : List MetaBlock → List MetaBlock
  | [] => [m]
  | x :: xs => if m.nonce < x.nonce then m :: x :: xs else x :: insertByNonce m xs

/-- The nonce sort applied to processed metablocks
(shardblock.go:959-963). -/
def sortByNonce (l : List MetaBlock) : List MetaBlock :=
  l.foldr insertByNonce []

/-- The per-tracked-header step of
`getProcessedMetaBlocksFromMiniBlockHashes` (shardblock.go:914-956),
threading the processed-hashes map, the remaining body miniblock hashes and
the accumulated fully-processed metablocks. -/
def processedMetaStep (selfId : Nat) (ledger : List (Nat × List Nat))
    (acc : List (Nat × Bool) × List Nat × List MetaBlock)
    (entry : Nat × HdrInfo) :
    List (Nat × Bool) × List Nat × List MetaBlock :=
  if ¬ entry.2.usedInBlock then acc
  else
    let cross := entry.2.hdr.miniBlockHashesWithDst selfId
    let pm1 := cross.foldl
      (fun pm h => amapPut pm h (isMiniBlockProcessed ledger entry.1 h)) acc.1
    let pm2 := acc.2.1.foldl
      (fun pm h => if cross.contains h then amapPut pm h true else pm) pm1
    let remaining := acc.2.1.filter (fun h => ¬ cross.contains h)
    let processedAll := cross.all (fun h => amapGet pm2 h == some true)
    (pm2, remaining,
      if processedAll then acc.2.2 ++ [entry.2.hdr] else acc.2.2)

/-- Embedding of `getProcessedMetaBlocksFromMiniBlockHashes`
(shardblock.go:906-966): returns the nonce-sorted fully-processed tracked
metablocks and the processed-hashes map. -/
def getProcessedFromHashes (selfId : Nat) (ledger : List (Nat × List Nat))
    (hdrs : List (Nat × HdrInfo)) (mbHashes : List Nat) :
    List MetaBlock × List (Nat × Bool) :=
  let r := hdrs.foldl (processedMetaStep selfId ledger) ([], mbHashes, [])
  (sortByNonce r.2.2, r.1)

/-- The ledger additions of `getProcessedMetaBlocksFromHeader`
(shardblock.go:845-864): for every tracked header used in the block, record
as processed every of its cross-shard miniblock hashes the processed map
marks true. -/
def commitLedgerAdds (selfId : Nat) (hdrs : List (Nat × HdrInfo))
    (processedMap : List (Nat × Bool)) (ledger : List (Nat × List Nat)) :
    List (Nat × List Nat) :=
  hdrs.foldl (fun lg entry =>
    if entry.2.usedInBlock then
      (entry.2.hdr.miniBlockHashesWithDst selfId).foldl
        (fun lg2 h =>
          if amapGet processedMap h == some true then ledgerAdd lg2 entry.1 h
          else lg2) lg
    else lg) ledger

/-- The per-metablock body of `removeProcessedMetaBlocksFromPool`
(shardblock.go:976-1015) for a processed metablock not newer than the last
notarized one: store its nonce-to-hash index and its serialization, remove
it from the metablocks pool and from the headers-nonces pool, and drop its
ledger entry. -/
def removeProcessedOne (cfg : CommitCfg) (lastNotarizedNonce : Nat)
    (s : GState) (hdr : MetaBlock) : GState :=
  if hdr.nonce > lastNotarizedNonce then s
  else
    let headerHash := cfg.hashMeta hdr
    { s with
      storageMetaNonce := amapPut s.storageMetaNonce hdr.nonce headerHash,
      storageMeta := amapPut s.storageMeta headerHash hdr,
      metaBlockPool := amapRemove s.metaBlockPool headerHash,
      poolNonces := amapRemove s.poolNonces (hdr.nonce, metachainShardId),
      ledger := ledgerRemoveAll s.ledger headerHash }

/-- Modelled from the spec: `baseProcessor.saveLastNotarizedHeader` (file
not part of the sources) — the committer "recomputes the set of
fully-processed metablocks ... and appends these to notarized slices": when
the cycle fully processed at least one metablock, the highest-nonce one
becomes the new tail of the notarized metachain slice. -/
def saveLastNotarized (notarized : List MetaBlock)
    (processedSorted : List MetaBlock) : List MetaBlock :=
  match processedSorted.getLast? with
  | none => notarized
  | some m => notarized ++ [m]

/-- Embedding of the pool/ledger/storage/notarization effects of
`shardProcessor.CommitBlock` (shardblock.go:579-745), in source order:
block-validity check (under the deferred account revert), insertion of the
committed shard header's nonce entry into the headers-nonces pool,
coordinator storage save, computation of the fully-processed metablocks
with their ledger additions, notarized-slice advance, accounts commit,
removal of processed metablocks from the pools, and the notarized-slice
trim `removeNotarizedHdrsBehindPreviousFinal` driven by the fork
detector's highest final nonce (shardblock.go:706,714-715, the nonce
answered through `cfg.highestFinalNonce`). Header/miniblock storage
writes, the fork detector's `AddHeader` call (whose error is only logged),
metrics and chain-head updates touch none of the modelled state and are
omitted. `hdrsForBlock` is the header-tracking map of the cycle. -/
def commitBlock (cfg : CommitCfg) (hdrsForBlock : List (Nat × HdrInfo))
    (hdr : Header) (s : GState) : Option Err × GState :=
  match cfg.checkBlockValidity with
  | some e => (some e, { s with journalLen := 0 })
  | none =>
    let headerHash := cfg.hashHdr hdr
    let s1 := { s with
      poolNonces := amapPut s.poolNonces (hdr.nonce, hdr.shardId) headerHash }
    match cfg.saveBlockData with
    | some e => (some e, { s1 with journalLen := 0 })
    | none =>
      let pr := getProcessedFromHashes cfg.selfId s1.ledger hdrsForBlock
        (hdr.miniBlockHeaders.map (·.hash))
      let s2 := { s1 with
        ledger := commitLedgerAdds cfg.selfId hdrsForBlock pr.2 s1.ledger }
      match cfg.finalHeaders with
      | some e => (some e, { s2 with journalLen := 0 })
      | none =>
        let s3 := { s2 with notarized := saveLastNotarized s2.notarized pr.1 }
        match s3.notarized.getLast? with
        | none => (some (Err.errOther 0), { s3 with journalLen := 0 })
        | some lastNotarized =>
          match cfg.commitAccounts with
          | some e => (some e, { s3 with journalLen := 0 })
          | none =>
            let s4 := { s3 with journalLen := 0 }
            let s5 := pr.1.foldl (removeProcessedOne cfg lastNotarized.nonce) s4
            (none, { s5 with
              notarized := removeNotarizedBehindFinal
                (hdrsToAttestPreviousFinal hdr.nonce cfg.highestFinalNonce)
                s5.notarized })

/-- The per-referenced-metablock body of `restoreMetaBlockIntoPool`
(shardblock.go:521-554): when the metablock is found in storage, record all
its self-destined cross miniblock hashes in the ledger, put it back into
the metablocks pool and the headers-nonces pool, and remove it from both
storage units; a storage miss is skipped. -/
def restoreMetaOne (cfg : CommitCfg) (s : GState) (metaBlockHash : Nat) :
    GState :=
  match amapGet s.storageMeta metaBlockHash with
  | none => s
  | some metaBlock =>
    { s with
      ledger := (metaBlock.miniBlockHashesWithDst cfg.selfId).foldl
        (fun lg h => ledgerAdd lg metaBlockHash h) s.ledger,
      metaBlockPool := amapPut s.metaBlockPool metaBlockHash metaBlock,
      poolNonces := amapPut s.poolNonces (metaBlock.nonce, metachainShardId)
        metaBlockHash,
      storageMeta := amapRemove s.storageMeta metaBlockHash,
      storageMetaNonce := amapRemove s.storageMetaNonce metaBlock.nonce }

/-- Embedding of `restoreMetaBlockIntoPool` (shardblock.go:510-561):
process every referenced metablock hash, then strip every miniblock hash of
the rolled-back block from the whole ledger. -/
def restoreMetaBlockIntoPool (cfg : CommitCfg) (mbHashes : List Nat)
    (metaBlockHashes : List Nat) (s : GState) : Option Err × GState :=
  let s1 := metaBlockHashes.foldl (restoreMetaOne cfg) s
  (none, { s1 with ledger := mbHashes.foldl ledgerRemoveMb s1.ledger })

/-- Embedding of `shardProcessor.RestoreBlockIntoPools`
(shardblock.go:475-508). The notarized tail is dropped
(`removeLastNotarized`, modelled from the spec: the restorer "drops the
last notarized tuple"; its file is not part of the sources) before the nil
checks on the header and body handlers run; the coordinator's
`RestoreBlockDataFromStorage` acts on the transaction pools, outside the
modelled state, and only its error is kept. -/
def restoreBlockIntoPools (cfg : CommitCfg) (hdr? : Option Header)
    (body? : Option (List MiniBlock)) (s : GState) : Option Err × GState :=
  let s0 := { s with notarized := s.notarized.dropLast }
  match hdr? with
  | none => (some Err.errNilBlockHeader, s0)
  | some hdr =>
    match body? with
    | none => (some Err.errNilTxBlockBody, s0)
    | some _ =>
      match cfg.restoreTx with
      | some e => (some e, s0)
      | none =>
        restoreMetaBlockIntoPool cfg (hdr.miniBlockHeaders.map (·.hash))
          hdr.metaBlockHashes s0

/-- The collaborators' answers consumed by the embedded `ProcessBlock`, one
field per call site in source order: the base block-validity check, the
special-address consensus-data setter, the two counters returned by
`requestMetaHeaders`, the `haveTime()` value read after requesting the meta
headers (a duration, so an integer), the coordinator's data-preparation
result, whether the all-received signal beats the deadline in
`waitForMetaHdrHashes`, the meta-header validity-and-finality check, the
cross-shard confirmation check, the processed-metablocks computation, the
meta consensus-data setter, the coordinator's transaction processing along
with the journal length its account mutations leave behind, the root-hash
comparison and the coordinator's created-block verification. -/
structure PBOracle where
  checkBlockValidity : Option Err
  setShardConsensusData : Option Err
  requestedMetaHdrs : Nat
  requestedFinalMetaHdrs : Nat
  htAfterRequest : Int
  isDataPrepared : Option Err
  waitSignal : Bool
  checkMetaValidityFinality : Option Err
  verifyCrossShard : Option Err
  getProcessedMeta : Option Err
  setMetaConsensus : Option Err
  processBlockTransaction : Option Err
  journalAfterProcessing : Nat
  stateRootOk : Bool
  verifyCreatedBlockTransactions : Option Err
  deriving DecidableEq, Repr

/-- The processor-and-accounts state `ProcessBlock` can read or mutate
among the modelled components: the accounts journal length and the
notarized metachain headers slice. -/
structure PBState where
  journalLen : Nat
  notarized : List MetaBlock
  deriving DecidableEq, Repr

/-- The tail of `ProcessBlock` guarded by the deferred account revert
(shardblock.go:257-288): processed-metablocks computation, meta
consensus-data publication, transaction application (which mutates the
accounts journal), root-hash verification and created-transactions
verification. The caller applies the deferred revert to the result. -/
def processBlockPhase (o : PBOracle) (s : PBState) : Option Err × PBState :=
  match o.getProcessedMeta with
  | some e => (some e, s)
  | none =>
    match o.setMetaConsensus with
    | some e => (some e, s)
    | none =>
      match o.processBlockTransaction with
      | some e => (some e, { s with journalLen := o.journalAfterProcessing })
      | none =>
        if ¬ o.stateRootOk then
          (some Err.errRootStateDoesNotMatch,
            { s with journalLen := o.journalAfterProcessing })
        else
          match o.verifyCreatedBlockTransactions with
          | some e => (some e, { s with journalLen := o.journalAfterProcessing })
          | none => (none, { s with journalLen := o.journalAfterProcessing })

/-- Embedding of `shardProcessor.ProcessBlock` (shardblock.go:146-289), in
source order: nil check on the `haveTime` handler (`haveTimeNil` tells
whether the caller passed nil), block-validity check, header/body
correlation, shard consensus-data publication, per-cycle reset and request
submission (no effect on the modelled state), the strictly-negative check
on the remaining time, coordinator data preparation, the conditional wait
for missing meta headers, the empty-journal requirement, meta-header
validity/finality, cross-shard confirmation, and then the mutation phase
under the deferred revert: on any error of the phase the accounts are
reverted (`RevertAccountState`, modelled from the spec: reverting empties
the journal; its file is not part of the sources). -/
def processBlock (o : PBOracle) (h : MiniBlock → Nat) (hdr : Header)
    (body : List MiniBlock) (haveTimeNil : Bool) (s : PBState) :
    Option Err × PBState :=
  if haveTimeNil then (some Err.errNilHaveTimeHandler, s)
  else
    match o.checkBlockValidity with
    | some e => (some e, s)
    | none =>
      match checkHeaderBodyCorrelation h hdr body with
      | some e => (some e, s)
      | none =>
        match o.setShardConsensusData with
        | some e => (some e, s)
        | none =>
          if o.htAfterRequest < 0 then (some Err.errTimeIsOut, s)
          else
            match o.isDataPrepared with
            | some e => (some e, s)
            | none =>
              if (o.requestedMetaHdrs > 0 ∨ o.requestedFinalMetaHdrs > 0) ∧
                  ¬ o.waitSignal then
                (some Err.errTimeIsOut, s)
              else if s.journalLen ≠ 0 then (some Err.errAccountStateDirty, s)
              else
                match o.checkMetaValidityFinality with
                | some e => (some e, s)
                | none =>
                  match o.verifyCrossShard with
                  | some e => (some e, s)
                  | none =>
                    match processBlockPhase o s with
                    | (some e, s1) => (some e, { s1 with journalLen := 0 })
                    | (none, s1) => (none, s1)

/-- A benign oracle: every collaborator call succeeds, nothing is missing,
the remaining time reads exactly zero, and transaction processing leaves
four journal entries. -/
def exOracleBenign : PBOracle :=
  { checkBlockValidity := none, setShardConsensusData := none,
    requestedMetaHdrs := 0, requestedFinalMetaHdrs := 0,
    htAfterRequest := 0, isDataPrepared := none, waitSignal := true,
    checkMetaValidityFinality := none, verifyCrossShard := none,
    getProcessedMeta := none, setMetaConsensus := none,
    processBlockTransaction := none, journalAfterProcessing := 4,
    stateRootOk := true, verifyCreatedBlockTransactions := none }

/-- An oracle whose root-hash comparison fails after the journal was
dirtied. -/
def exOracleRootMismatch : PBOracle :=
  { exOracleBenign with stateRootOk := false, htAfterRequest := 5 }

/-- An oracle reading a strictly negative remaining time after the meta
header requests. -/
def exOracleNegTime : PBOracle :=
  { exOracleBenign with htAfterRequest := -1 }

/-- A shard header with no miniblock headers and no metablock references. -/
def exEmptyHdr : Header :=
  { nonce := 0, prevHash := 0, prevRandSeed := 0, randSeed := 0, shardId := 0,
    round := 0, rootHash := 0, miniBlockHeaders := [], metaBlockHashes := [],
    txCount := 0 }

/-- A processor state with a clean journal and one notarized metablock. -/
def exPBState : PBState := { journalLen := 0, notarized := [exMetaPrev] }

/-- Concrete commit/restore collaborators: injective hashers on the data
used, a fork detector reporting nonce 5 as highest final, every call
succeeding. -/
def exCommitCfg : CommitCfg :=
  { hashHdr := fun h => h.nonce * 1000, hashMeta := fun m => m.nonce * 100,
    selfId := 0, highestFinalNonce := 5, checkBlockValidity := none,
    saveBlockData := none, finalHeaders := none, commitAccounts := none,
    restoreTx := none }

/-- The metablock of the commit/restore scenario: nonce 5, notarizing one
cross miniblock (hash 21) from shard 1 to shard 0. Under `exCommitCfg` it
hashes to 500. -/
def exMetaM : MetaBlock :=
  { nonce := 5, round := 5, prevHash := 0, prevRandSeed := 0, randSeed := 0,
    shardMiniBlocks := [{ hash := 21, senderShardId := 1, receiverShardId := 0 }] }

/-- The shard block of the commit/restore scenario: it carries the
miniblock with hash 21 and references the metablock hash 500. -/
def exCommitHdr : Header :=
  { nonce := 9, prevHash := 0, prevRandSeed := 0, randSeed := 0, shardId := 0,
    round := 9, rootHash := 0,
    miniBlockHeaders := [{ hash := 21, senderShardID := 1, receiverShardID := 0, txCount := 1, mbType := MBType.txBlock }],
    metaBlockHashes := [500], txCount := 1 }

/-- The body of the commit/restore scenario's shard block. -/
def exCommitBody : List MiniBlock :=
  [{ txHashes := [40], receiverShardID := 0, senderShardID := 1,
     mbType := MBType.txBlock }]

/-- The header-tracking map of the commit/restore scenario: the metablock
is tracked and used in the block. -/
def exHdrsForBlock : List (Nat × HdrInfo) := [(500, ⟨true, exMetaM⟩)]

/-- The pre-commit state of the commit/restore scenario: an empty ledger,
the metablock in the pool and in the nonce index, nothing in storage, a
predecessor notarized. -/
def exGState0 : GState :=
  { ledger := [], metaBlockPool := [(500, exMetaM)],
    poolNonces := [((5, metachainShardId), 500)],
    storageMeta := [], storageMetaNonce := [], notarized := [exMetaPrev],
    journalLen := 0 }

/-- A state with one notarized metablock, for the nil-restore
counterexample. -/
def exGStateNotar : GState :=
  { ledger := [], metaBlockPool := [], poolNonces := [], storageMeta := [],
    storageMetaNonce := [], notarized := [exMetaPrev], journalLen := 0 }

end ShardBlock

namespace ShardBlock

/-- Claim C1 (corrected), counterexample: `checkHeaderBodyCorrelation`
accepts a header whose miniblock headers are a permutation of the body's
(entry 0 of the header does not equal the record derived from body entry 0),
contradicting the claim that any pair violating the per-index equality is
rejected with `ErrHeaderBodyMismatch`. -/
theorem checkHeaderBodyCorrelation_accepts_permuted :
    checkHeaderBodyCorrelation exHash exHdr exBody = none ∧
      exHdr.miniBlockHeaders ≠ exBody.map (mkMiniBlockHeader exHash) := by
  decide

/-- The inner loop of `checkHeaderBodyCorrelation` succeeds iff every body
miniblock's hash resolves in the header map with matching count and shards. -/
theorem correlation_go_none_iff (h : MiniBlock → Nat) (hdr : Header)
    (body : List MiniBlock) :
    checkHeaderBodyCorrelation.go h hdr body = none ↔
      ∀ mb ∈ body, ∃ mbHdr, lookupLast (h mb) hdr.miniBlockHeaders = some mbHdr ∧
        mbHdr.txCount = mb.txHashes.length ∧
        mbHdr.receiverShardID = mb.receiverShardID ∧
        mbHdr.senderShardID = mb.senderShardID := by
  induction body with
  | nil => simp [checkHeaderBodyCorrelation.go]
  | cons x xs ih =>
    rw [checkHeaderBodyCorrelation.go]
    rcases hfind : lookupLast (h x) hdr.miniBlockHeaders with _ | mbHdr
    · simp only [List.mem_cons]
      constructor
      · intro hcontra; simp at hcontra
      · intro hall
        obtain ⟨mbHdr, hf, -⟩ := hall x (Or.inl rfl)
        rw [hfind] at hf; exact absurd hf (by simp)
    · simp only [List.mem_cons]
      by_cases ht : mbHdr.txCount = x.txHashes.length
      · by_cases hr : mbHdr.receiverShardID = x.receiverShardID
        · by_cases hs : mbHdr.senderShardID = x.senderShardID
          · simp only [ht, hr, hs, ne_eq, not_true_eq_false, if_false, ih]
            constructor
            · intro hall mb hmb
              rcases hmb with hmb | hmb
              · exact hmb ▸ ⟨mbHdr, hfind, ht, hr, hs⟩
              · exact hall mb hmb
            · intro hall mb hmb; exact hall mb (Or.inr hmb)
          · simp only [ht, hr, hs, ne_eq, not_true_eq_false, if_false,
              not_false_eq_true, if_true]
            constructor
            · intro hcontra; simp at hcontra
            · intro hall
              obtain ⟨m, hf, -, -, hs2⟩ := hall x (Or.inl rfl)
              rw [hfind] at hf
              exact absurd (Option.some.inj hf ▸ hs2) hs
        · simp only [ht, hr, ne_eq, not_true_eq_false, if_false,
            not_false_eq_true, if_true]
          constructor
          · intro hcontra; simp at hcontra
          · intro hall
            obtain ⟨m, hf, -, hr2, -⟩ := hall x (Or.inl rfl)
            rw [hfind] at hf
            exact absurd (Option.some.inj hf ▸ hr2) hr
      · simp only [ht, ne_eq, not_false_eq_true, if_true]
        constructor
        · intro hcontra; simp at hcontra
        · intro hall
          obtain ⟨m, hf, ht2, -⟩ := hall x (Or.inl rfl)
          rw [hfind] at hf
          exact absurd (Option.some.inj hf ▸ ht2) ht

/-- Claim C1 (amended): the header/body correlation check accepts the pair
iff the header has as many miniblock headers as the body has miniblocks and
every body miniblock's hash is found among the header's miniblock headers
(last occurrence winning) with matching transaction count, receiver shard
and sender shard; the miniblock type and the position are not compared. -/
theorem checkHeaderBodyCorrelation_iff (h : MiniBlock → Nat) (hdr : Header)
    (body : List MiniBlock) :
    checkHeaderBodyCorrelation h hdr body = none ↔
      (hdr.miniBlockHeaders.length = body.length ∧
        ∀ mb ∈ body, ∃ mbHdr, lookupLast (h mb) hdr.miniBlockHeaders = some mbHdr ∧
          mbHdr.txCount = mb.txHashes.length ∧
          mbHdr.receiverShardID = mb.receiverShardID ∧
          mbHdr.senderShardID = mb.senderShardID) := by
  unfold checkHeaderBodyCorrelation
  by_cases hlen : hdr.miniBlockHeaders.length = body.length
  · simp only [hlen, ne_eq, not_true_eq_false, if_false,
      correlation_go_none_iff, true_and]
  · simp only [ne_eq, hlen, not_false_eq_true, if_true]
    constructor
    · intro hcontra; simp at hcontra
    · rintro ⟨hc, -⟩; exact hc.elim

/-- The early-exit scan verifies `k` successors iff the accumulated count
plus the number of valid successors found by the plain counting scan
reaches `k`. -/
theorem finalScan_eq_count (hashM : MetaBlock → Nat) (k : Nat)
    (l : List MetaBlock) :
    ∀ (lastVerified : MetaBlock) (count : Nat),
      finalScan hashM k lastVerified count l = true ↔
        count + countValidSuccessors hashM lastVerified l ≥ k := by
  induction l with
  | nil =>
    intro lastVerified count
    simp [finalScan, countValidSuccessors]
  | cons hdr rest ih =>
    intro lastVerified count
    rw [finalScan, countValidSuccessors]
    by_cases hcount : count ≥ k
    · simp only [hcount, if_true, true_iff]
      exact Nat.le_trans hcount (Nat.le_add_right _ _)
    · by_cases hn : hdr.nonce == lastVerified.nonce + 1
      · by_cases hv : isHdrConstructionValid hashM hdr lastVerified
        · simp only [hcount, if_false, hn, hv, if_true, Bool.true_and, ih]
          omega
        · simp [hcount, hn, hv, ih]
      · simp [hcount, hn, ih]

/-- Claim C3 (confirmed): `isMetaHeaderFinal` declares a (non-nil) candidate
header final over a (non-nil) nonce-sorted successor list iff scanning the
list in order, advancing a last-verified pointer, finds at least `k`
successors each having the next nonce and passing construction validity
against the last verified header (`k` = `metaBlockFinality`). -/
theorem isMetaHeaderFinal_iff_count (hashM : MetaBlock → Nat) (k : Nat)
    (c : MetaBlock) (l : List MetaBlock) :
    isMetaHeaderFinal hashM k (some c) (some l) = true ↔
      countValidSuccessors hashM c l ≥ k := by
  rw [isMetaHeaderFinal, finalScan_eq_count]
  simp

/-- Looking up the inserted key after a Go-map assignment yields the
inserted value. -/
theorem lookupHdr_mapInsert (key : Nat) (v : HdrInfo) :
    ∀ m, lookupHdr (mapInsert m key v) key = some v := by
  intro m
  induction m with
  | nil =>
    rw [mapInsert]
    simp [lookupHdr]
  | cons p ps ih =>
    by_cases hp : (p.1 == key) = true
    · have hp' : p.1 = key := by simpa using hp
      have hcons : mapInsert (p :: ps) key v =
          (key, v) :: ps.map (fun q => if q.1 == key then (key, v) else q) := by
        rw [mapInsert]
        simp [List.any_cons, hp, hp']
      rw [hcons]
      unfold lookupHdr
      rw [List.find?_cons_of_pos]
      · rfl
      · simp
    · have hp' : ¬ p.1 = key := by simpa using hp
      by_cases hps : (ps.any fun q => q.1 == key) = true
      · have hm : mapInsert ps key v =
            ps.map (fun q => if q.1 == key then (key, v) else q) := by
          rw [mapInsert]
          simp [hps]
        have hcons : mapInsert (p :: ps) key v =
            p :: ps.map (fun q => if q.1 == key then (key, v) else q) := by
          rw [mapInsert]
          simp [List.any_cons, hp, hps, hp']
        rw [hcons]
        unfold lookupHdr
        rw [List.find?_cons_of_neg, ← hm]
        · exact ih
        · simpa using hp'
      · have hcons : mapInsert (p :: ps) key v = p :: mapInsert ps key v := by
          rw [mapInsert, mapInsert]
          simp [List.any_cons, hp, hps]
        rw [hcons]
        unfold lookupHdr
        rw [List.find?_cons_of_neg]
        · exact ih
        · simpa using hp'

/-- Claim C5 (confirmed): the cross-shard selector loop considers no further
candidate metablock as soon as the time oracle answers false, or the number
of collected miniblocks reaches `MaxMiniBlocksInBlock`, or the number of
tracked headers plus collected miniblocks reaches the combined item budget:
it returns the accumulated state unchanged. -/
theorem crossSel_budget_stop (cfg : SelCfg) (i : Nat) (st : SelState)
    (cands : List (Nat × MetaBlock))
    (h : cfg.haveTime i = false ∨ st.miniBlocks.length ≥ cfg.maxMbInBlock ∨
      st.hdrHashAndInfo.length + st.miniBlocks.length ≥ cfg.maxItemsInBlock) :
    crossSel cfg i st cands = st := by
  rcases cands with _ | ⟨⟨hash, hdr⟩, rest⟩
  · rw [crossSel]
  · rcases h with h | h | h
    · rw [crossSel]; simp [h]
    · rw [crossSel]
      have hnt : ¬ cfg.haveTime i = true ∨ cfg.haveTime i = true := by
        rcases cfg.haveTime i with _ | _ <;> simp
      rcases hnt with hnt | hnt
      · simp [hnt]
      · simp [hnt, h]
    · rw [crossSel]
      rcases hb : cfg.haveTime i with _ | _
      · simp
      · by_cases hm : st.miniBlocks.length ≥ cfg.maxMbInBlock
        · simp [hm]
        · simp [hm, h]

/-- Witness for the budget-stop theorem at a concrete expired-time input. -/
theorem crossSel_budget_stop_witness :
    exSelCfgNoTime.haveTime 0 = false ∧
      crossSel exSelCfgNoTime 0 exSelState [(7, exMetaNext)] = exSelState :=
  ⟨rfl, crossSel_budget_stop exSelCfgNoTime 0 exSelState [(7, exMetaNext)]
    (Or.inl rfl)⟩

/-- Claim C6 (confirmed): for a candidate that passes the loop guards, is
construction-valid and final: (a) when it notarizes no miniblock destined to
the self shard it is recorded in the tracking map with `usedInBlock = true`
and the scan continues on the remaining candidates with the last verified
pointer advanced to it; (b) when the transaction coordinator is invoked for
it (it has self-destined miniblocks, the body budget is not exhausted and
both remaining spaces are positive), it ends up recorded with
`usedInBlock = true` in the post-step tracking map iff the coordinator
reports a positive number of added transactions. -/
theorem crossSel_marks_used (cfg : SelCfg) (i : Nat) (st : SelState)
    (hash : Nat) (hdr : MetaBlock) (rest : List (Nat × MetaBlock))
    (hTime : cfg.haveTime i = true)
    (hMb : st.miniBlocks.length < cfg.maxMbInBlock)
    (hItems : st.hdrHashAndInfo.length + st.miniBlocks.length < cfg.maxItemsInBlock)
    (hValid : isHdrConstructionValid cfg.hashM hdr st.lastMetaHdr = true)
    (hFinal : isMetaHeaderFinal cfg.hashM cfg.k (some hdr)
      (some (rest.map (·.2))) = true)
    (hNotTracked : lookupHdr st.hdrHashAndInfo hash = none) :
    ((hdr.miniBlockHashesWithDst cfg.selfId) = [] →
      ∃ st', crossSel cfg i st ((hash, hdr) :: rest) = crossSel cfg (i + 1) st' rest ∧
        lookupHdr st'.hdrHashAndInfo hash = some ⟨true, hdr⟩ ∧
        st'.lastMetaHdr = hdr) ∧
    ((hdr.miniBlockHashesWithDst cfg.selfId) ≠ [] →
      st.txsAdded < cfg.maxItemsInBlock →
      getMaxMiniBlocksSpaceRemained cfg.maxMbInBlock cfg.maxItemsInBlock
        (st.hdrHashAndInfo.length + st.miniBlocks.length + 1)
        st.miniBlocks.length > 0 →
      ∃ st', (crossSel cfg i st ((hash, hdr) :: rest) = st' ∨
          crossSel cfg i st ((hash, hdr) :: rest) =
            crossSel cfg (i + 1) { st' with lastMetaHdr := hdr } rest) ∧
        (lookupHdr st'.hdrHashAndInfo hash = some ⟨true, hdr⟩ ↔
          (cfg.coord i).txs > 0)) := by
  constructor
  · intro hEmpty
    refine ⟨markUsed st hash hdr, ?_, ?_, rfl⟩
    · rw [crossSel]
      simp [hTime, Nat.not_le.2 hMb, Nat.not_le.2 hItems, hValid, hFinal, hEmpty]
    · exact lookupHdr_mapInsert hash ⟨true, hdr⟩ st.hdrHashAndInfo
  · intro hNonEmpty hTxs hSpace
    have hEmpty : (hdr.miniBlockHashesWithDst cfg.selfId).isEmpty = false := by
      rcases hd : hdr.miniBlockHashesWithDst cfg.selfId with _ | _
      · exact absurd hd hNonEmpty
      · rfl
    have hTxSpace : ((cfg.maxItemsInBlock : Int) - (st.txsAdded : Int)) > 0 := by
      omega
    refine ⟨applyCoord st hash hdr (cfg.coord i), ?_, ?_⟩
    · rw [crossSel]
      simp only [hTime, Bool.not_true, Bool.false_eq_true, if_false,
        Nat.not_le.2 hMb, Nat.not_le.2 hItems, hValid, hFinal, hEmpty,
        Nat.not_le.2 hTxs, Bool.not_false, if_true]
      simp only [not_true, if_false, hTxSpace, hSpace, and_self, if_true]
      rcases hf : (cfg.coord i).finished with _ | _
      · simp [hf]
      · simp [hf]
    · unfold applyCoord
      by_cases htx : (cfg.coord i).txs > 0
      · simp only [htx, if_true, iff_true]
        exact lookupHdr_mapInsert hash ⟨true, hdr⟩ st.hdrHashAndInfo
      · simp only [htx, if_false]
        simp [hNotTracked, htx]

/-- Witness for the marking theorem: a construction-valid final candidate
with no self-destined miniblocks on a fresh state, with `k = 0`. -/
theorem crossSel_marks_used_witness :
    exSelCfgTime.haveTime 0 = true ∧
      isHdrConstructionValid exSelCfgTime.hashM exMetaNext exSelState.lastMetaHdr = true ∧
      ((exMetaNext.miniBlockHashesWithDst exSelCfgTime.selfId) = [] →
        ∃ st', crossSel exSelCfgTime 0 exSelState [(7, exMetaNext)] =
            crossSel exSelCfgTime 1 st' [] ∧
          lookupHdr st'.hdrHashAndInfo 7 = some ⟨true, exMetaNext⟩ ∧
          st'.lastMetaHdr = exMetaNext) := by
  refine ⟨rfl, rfl, ?_⟩
  exact (crossSel_marks_used exSelCfgTime 0 exSelState 7 exMetaNext []
    rfl (by decide) (by decide) rfl rfl rfl).1

/-- Claim C10 (confirmed): `CreateBlockHeader` called with a nil body
handler returns, with a nil error, a header whose miniblock-header list is
empty, whose transaction count is zero, whose root hash is the current
account root hash and whose shard id is the self shard id. -/
theorem createBlockHeader_nil_body (rootHash selfId : Nat)
    (h : MiniBlock → Nat) (metaHashesUsed : List Nat) :
    createBlockHeader rootHash selfId h metaHashesUsed none =
      (some { nonce := 0, prevHash := 0, prevRandSeed := 0, randSeed := 0,
              shardId := selfId, round := 0, rootHash := rootHash,
              miniBlockHeaders := [], metaBlockHashes := [], txCount := 0 },
        none) := rfl

/-- A delivery on a state with both counters at zero skips the guarded
branch: the counters do not move and no signal is sent. -/
theorem deliverStep_frozen (ev : DeliverEvent) :
    deliverStep (0, 0) ev = ((0, 0), false) := by
  simp [deliverStep]

/-- A delivery that sends the signal leaves both counters at zero. -/
theorem deliverStep_signal_zero (s : Nat × Nat) (ev : DeliverEvent)
    (hsig : (deliverStep s ev).2 = true) : (deliverStep s ev).1 = (0, 0) := by
  unfold deliverStep at hsig ⊢
  by_cases hc : s.1 > 0 ∨ s.2 > 0
  · simp only [hc, if_true] at hsig ⊢
    rw [Bool.and_eq_true, beq_iff_eq, beq_iff_eq] at hsig
    have h1 := hsig.1
    have h2 := hsig.2
    rw [if_pos h1] at h2
    simp [h1, h2]
  · simp [hc] at hsig

/-- No signal is ever sent from the frozen state. -/
theorem signalCount_frozen : ∀ evs, signalCount (0, 0) evs = 0 := by
  intro evs
  induction evs with
  | nil => rfl
  | cons ev rest ih =>
    rw [signalCount, deliverStep_frozen]
    simpa using ih

/-- Claim C9 (confirmed): within one build/validate cycle (between two
`CreateBlockStarted` resets), the `receivedMetaBlock` dispatcher sends the
all-received completion signal at most once, whatever the initial counters
and whatever sequence of deliveries arrives: a send requires both counters
to reach zero, and from that state every later delivery skips the guarded
branch. -/
theorem signalCount_le_one (s : Nat × Nat) (evs : List DeliverEvent) :
    signalCount s evs ≤ 1 := by
  induction evs generalizing s with
  | nil => simp [signalCount]
  | cons ev rest ih =>
    rw [signalCount]
    rcases hsig : (deliverStep s ev).2 with _ | _
    · simpa using ih (deliverStep s ev).1
    · rw [deliverStep_signal_zero s ev hsig, signalCount_frozen]
      simp

/-- Claim C2 (confirmed): whenever `ProcessBlock` reaches the mutation
phase (every step before the deferred revert registration succeeded) and
returns a non-nil error — in particular `ErrRootStateDoesNotMatch` — the
deferred guard has reverted the accounts, so the journal length is zero on
return. -/
theorem processBlock_reverts_on_phase_error (o : PBOracle)
    (h : MiniBlock → Nat) (hdr : Header) (body : List MiniBlock) (s : PBState)
    (hv : o.checkBlockValidity = none)
    (hc : checkHeaderBodyCorrelation h hdr body = none)
    (hs : o.setShardConsensusData = none)
    (hht : 0 ≤ o.htAfterRequest)
    (hd : o.isDataPrepared = none)
    (hw : o.waitSignal = true)
    (hj : s.journalLen = 0)
    (hm : o.checkMetaValidityFinality = none)
    (hx : o.verifyCrossShard = none)
    (herr : (processBlock o h hdr body false s).1 ≠ none) :
    (processBlock o h hdr body false s).2.journalLen = 0 := by
  rw [processBlock] at herr ⊢
  simp only [if_false, hv, hc, hs, hd, hw, hm, hx, not_true, and_false,
    if_neg (not_lt.2 hht), Bool.false_eq_true] at herr ⊢
  simp only [hj, ne_eq, not_true_eq_false, if_false, not_false_eq_true,
    if_true] at herr ⊢
  rcases hp : processBlockPhase o s with ⟨e, s1⟩
  rcases e with _ | e
  · rw [hp] at herr
    simp at herr
  · rfl

/-- Witness for the rollback theorem: the root-state mismatch oracle leaves
a zero journal although transaction processing produced four entries. -/
theorem processBlock_reverts_witness :
    (processBlock exOracleRootMismatch exHash exEmptyHdr [] false exPBState).1 =
        some Err.errRootStateDoesNotMatch ∧
      exOracleRootMismatch.journalAfterProcessing = 4 ∧
      (processBlock exOracleRootMismatch exHash exEmptyHdr [] false
        exPBState).2.journalLen = 0 :=
  ⟨rfl, rfl,
    processBlock_reverts_on_phase_error exOracleRootMismatch exHash exEmptyHdr
      [] exPBState rfl rfl rfl (by decide) rfl rfl rfl rfl rfl (by decide)⟩

/-- Claim C8 (corrected), counterexample: with a remaining time of exactly
zero at the check performed after requesting the meta headers and benign
collaborators, `ProcessBlock` does not fail with `TimeIsOut` — it returns
nil — because the source compares `haveTime() < 0` strictly, so a zero
remainder is not treated as cancellation there. -/
theorem processBlock_zero_time_accepted :
    exOracleBenign.htAfterRequest = 0 ∧
      (processBlock exOracleBenign exHash exEmptyHdr [] false exPBState).1 =
        none :=
  ⟨rfl, rfl⟩

/-- Claim C8 (amended): if `haveTime()` returns a strictly negative
duration at the check performed after requesting the meta headers (and the
steps before it succeeded), `ProcessBlock` fails with `TimeIsOut` and the
state is untouched. -/
theorem processBlock_negative_time_timeout (o : PBOracle)
    (h : MiniBlock → Nat) (hdr : Header) (body : List MiniBlock) (s : PBState)
    (hv : o.checkBlockValidity = none)
    (hc : checkHeaderBodyCorrelation h hdr body = none)
    (hs : o.setShardConsensusData = none)
    (hht : o.htAfterRequest < 0) :
    processBlock o h hdr body false s = (some Err.errTimeIsOut, s) := by
  rw [processBlock]
  simp only [if_false, hv, hc, hs, if_pos hht, Bool.false_eq_true]

/-- Witness for the negative-time theorem at a concrete input. -/
theorem processBlock_negative_time_timeout_witness :
    exOracleNegTime.htAfterRequest < 0 ∧
      processBlock exOracleNegTime exHash exEmptyHdr [] false exPBState =
        (some Err.errTimeIsOut, exPBState) :=
  ⟨by decide,
    processBlock_negative_time_timeout exOracleNegTime exHash exEmptyHdr []
      exPBState rfl rfl rfl (by decide)⟩

/-- Claim C7 (corrected), counterexample: `RestoreBlockIntoPools` called
with a nil header returns the nil-argument error `ErrNilBlockHeader`, yet
processor state has been touched: the notarized-headers slice lost its last
entry. -/
theorem restore_nil_header_mutates_state :
    (restoreBlockIntoPools exCommitCfg none none exGStateNotar).1 =
        some Err.errNilBlockHeader ∧
      (restoreBlockIntoPools exCommitCfg none none exGStateNotar).2.notarized ≠
        exGStateNotar.notarized := by
  constructor
  · rfl
  · decide

/-- Claim C7 (amended): `ProcessBlock` called with a nil `haveTime` handler
returns the nil-argument error with the processor state untouched; but
`RestoreBlockIntoPools` drops the last notarized tuple before its nil
checks, so its nil-argument error returns with the notarized-headers slice
shortened by one (the rest of the modelled state untouched). -/
theorem nil_argument_state_effects :
    (∀ (o : PBOracle) (h : MiniBlock → Nat) (hdr : Header)
        (body : List MiniBlock) (s : PBState),
      processBlock o h hdr body true s = (some Err.errNilHaveTimeHandler, s)) ∧
    (∀ (cfg : CommitCfg) (s : GState),
      restoreBlockIntoPools cfg none none s =
        (some Err.errNilBlockHeader,
          { s with notarized := s.notarized.dropLast })) :=
  ⟨fun _ _ _ _ _ => rfl, fun _ _ => rfl⟩

/-- Claim C4 (corrected), counterexample: in the concrete scenario where
block B (header `exCommitHdr`, one cross miniblock with hash 21) fully
processes metablock `exMetaM` (hash 500, whose only self-destined cross
miniblock is 21), `CommitBlock` followed by `RestoreBlockIntoPools`
succeeds, yet afterwards the ledger entry of the restored metablock is
empty — it does not contain the miniblock hash 21 that B had processed,
because the restorer strips B's own miniblock hashes last — and the data
pools are not equal to their pre-commit state: the headers-nonces pool
still holds the shard-header nonce entry that commit inserted. -/
theorem commit_restore_not_left_inverse :
    (commitBlock exCommitCfg exHdrsForBlock exCommitHdr exGState0).1 = none ∧
    (restoreBlockIntoPools exCommitCfg (some exCommitHdr) (some exCommitBody)
        (commitBlock exCommitCfg exHdrsForBlock exCommitHdr exGState0).2).1 =
      none ∧
    (restoreBlockIntoPools exCommitCfg (some exCommitHdr) (some exCommitBody)
        (commitBlock exCommitCfg exHdrsForBlock exCommitHdr exGState0).2).2.ledger =
      [(500, [])] ∧
    isMiniBlockProcessed
      (restoreBlockIntoPools exCommitCfg (some exCommitHdr) (some exCommitBody)
        (commitBlock exCommitCfg exHdrsForBlock exCommitHdr
          exGState0).2).2.ledger 500 21 = false ∧
    (restoreBlockIntoPools exCommitCfg (some exCommitHdr) (some exCommitBody)
        (commitBlock exCommitCfg exHdrsForBlock exCommitHdr
          exGState0).2).2.poolNonces ≠ exGState0.poolNonces := by
  refine ⟨rfl, rfl, rfl, rfl, ?_⟩
  decide

/-- Claim C4 (amended): committing then restoring a block B that fully and
freshly processes one tracked metablock returns the metablocks pool and
the metablock storage units to their pre-commit state (modulo
account-journal side effects); the notarized slice returns to its
pre-commit state provided the committer's trim of old notarized entries
(`removeNotarizedHdrsBehindPreviousFinal`, driven by the fork detector's
highest final block nonce) preserves it — its pre-commit length is within
the `hdrsToAttestPreviousFinal` bound — since entries the trim drops are
not resurrected by the restorer's single `removeLastNotarized`; the
metablock's nonce entry is back in the headers-nonces pool, which
additionally retains the shard-header nonce entry the commit inserted; and
the restored ledger entry of the metablock holds the metablock's
self-destined cross miniblock hashes minus the miniblock hashes of B — the
hashes processed before B, not the ones B had processed (here none, the
entry is empty). -/
theorem commit_restore_roundtrip (cfg : CommitCfg) (M : MetaBlock)
    (hdr : Header) (mHash mbHash : Nat) (n0 : List MetaBlock) (j : Nat)
    (body : List MiniBlock)
    (hcross : M.miniBlockHashesWithDst cfg.selfId = [mbHash])
    (hmeta : cfg.hashMeta M = mHash)
    (hrefs : hdr.metaBlockHashes = [mHash])
    (hmbs : hdr.miniBlockHeaders.map (·.hash) = [mbHash])
    (hshard : hdr.shardId ≠ metachainShardId)
    (htrim : n0.length ≤ hdrsToAttestPreviousFinal hdr.nonce cfg.highestFinalNonce)
    (hcv : cfg.checkBlockValidity = none)
    (hsv : cfg.saveBlockData = none)
    (hfh : cfg.finalHeaders = none)
    (hca : cfg.commitAccounts = none)
    (hrt : cfg.restoreTx = none) :
    (restoreBlockIntoPools cfg (some hdr) (some body)
        (commitBlock cfg [(mHash, ⟨true, M⟩)] hdr
          { ledger := [], metaBlockPool := [(mHash, M)],
            poolNonces := [((M.nonce, metachainShardId), mHash)],
            storageMeta := [], storageMetaNonce := [], notarized := n0,
            journalLen := j }).2).2 =
      { ledger := [(mHash, [])], metaBlockPool := [(mHash, M)],
        poolNonces := [((hdr.nonce, hdr.shardId), cfg.hashHdr hdr),
          ((M.nonce, metachainShardId), mHash)],
        storageMeta := [], storageMetaNonce := [], notarized := n0,
        journalLen := 0 } := by
  have hk1 : (((M.nonce, metachainShardId) : Nat × Nat) ==
      (hdr.nonce, hdr.shardId)) = false := by
    apply beq_eq_false_iff_ne.2
    intro hcontra
    exact hshard ((congrArg Prod.snd hcontra).symm)
  have hk2 : (((hdr.nonce, hdr.shardId) : Nat × Nat) ==
      (M.nonce, metachainShardId)) = false := by
    apply beq_eq_false_iff_ne.2
    intro hcontra
    exact hshard (congrArg Prod.snd hcontra)
  rw [commitBlock]
  simp only [hcv, hsv, hfh, hca]
  rw [getProcessedFromHashes]
  simp only [List.foldl_cons, List.foldl_nil, hmbs]
  rw [processedMetaStep]
  simp only [hcross, List.foldl_cons, List.foldl_nil]
  have hne1 : (((M.nonce, metachainShardId) : Nat × Nat)) ≠
      (hdr.nonce, hdr.shardId) := fun hc => hshard ((congrArg Prod.snd hc).symm)
  have hne2 : (((hdr.nonce, hdr.shardId) : Nat × Nat)) ≠
      (M.nonce, metachainShardId) := fun hc => hshard (congrArg Prod.snd hc)
  have htrimEq : removeNotarizedBehindFinal
      (hdrsToAttestPreviousFinal hdr.nonce cfg.highestFinalNonce)
      (n0 ++ [M]) = n0 ++ [M] := by
    rw [removeNotarizedBehindFinal]
    by_cases hlen : (n0 ++ [M]).length >
        hdrsToAttestPreviousFinal hdr.nonce cfg.highestFinalNonce
    · rw [if_pos hlen]
      have hz : (n0 ++ [M]).length - 1 -
          hdrsToAttestPreviousFinal hdr.nonce cfg.highestFinalNonce = 0 := by
        simp only [List.length_append, List.length_cons, List.length_nil] at hlen ⊢
        omega
      rw [hz, List.drop_zero]
    · rw [if_neg hlen]
  simp [commitLedgerAdds, saveLastNotarized, sortByNonce, insertByNonce,
    ledgerAdd, ledgerRemoveAll, ledgerRemoveMb, isMiniBlockProcessed,
    amapPut, amapGet, amapRemove, hcross, hmeta, hrefs, hmbs, hk1, hk2,
    hne1, hne2, htrimEq, removeProcessedOne, restoreBlockIntoPools,
    restoreMetaBlockIntoPool, restoreMetaOne, hrt, List.dropLast_concat]

/-- Witness for the round-trip theorem at the concrete scenario. -/
theorem commit_restore_roundtrip_witness :
    exMetaM.miniBlockHashesWithDst exCommitCfg.selfId = [21] ∧
      [exMetaPrev].length ≤
        hdrsToAttestPreviousFinal exCommitHdr.nonce exCommitCfg.highestFinalNonce ∧
      (restoreBlockIntoPools exCommitCfg (some exCommitHdr) (some exCommitBody)
          (commitBlock exCommitCfg [(500, ⟨true, exMetaM⟩)] exCommitHdr
            { ledger := [], metaBlockPool := [(500, exMetaM)],
              poolNonces := [((exMetaM.nonce, metachainShardId), 500)],
              storageMeta := [], storageMetaNonce := [],
              notarized := [exMetaPrev], journalLen := 3 }).2).2 =
        { ledger := [(500, [])], metaBlockPool := [(500, exMetaM)],
          poolNonces := [((exCommitHdr.nonce, exCommitHdr.shardId),
            exCommitCfg.hashHdr exCommitHdr),
            ((exMetaM.nonce, metachainShardId), 500)],
          storageMeta := [], storageMetaNonce := [],
          notarized := [exMetaPrev], journalLen := 0 } :=
  ⟨rfl, by decide,
    commit_restore_roundtrip exCommitCfg exMetaM exCommitHdr 500 21
      [exMetaPrev] 3 exCommitBody rfl rfl rfl rfl (by decide) (by decide)
      rfl rfl rfl rfl rfl⟩

end ShardBlock
